import Mathlib

/-!
Shallow embedding of `src/app/etl.py`, a Plex/Tautulli history ETL script.

The script performs one sync cycle in `fetch_history`:
  fetch (requests.get + raise_for_status + .json(), inside a try/except),
  extract `data["response"]["data"]["data"]` (outside the try),
  build a pandas DataFrame, select the target columns that occur in the batch,
  convert the `date` column to a timestamp column `watched_at`,
  drop NaN `reference_id` rows, coerce `reference_id` with `astype(int)`,
  then insert row by row with `ON CONFLICT (reference_id) DO NOTHING`,
  committing the batch at the end (so an exception mid-batch rolls back).
The `__main__` loop runs `fetch_history` forever inside a try/except and
sleeps between cycles.

Machine-level conventions of the embedding: cell values are `Value`
(pandas NaN and JSON null both become `vNull`, matching `pd.DataFrame` on a
list of dicts); a pandas `Timestamp` is its epoch count in nanoseconds,
which is how pandas stores it; Python exceptions are the `Exc` type carried
in `Except` or in the `exc` field of a cycle result.
-/

namespace Etl

/-- A cell value as it appears in a pandas DataFrame built from JSON records:
null/NaN, an integer, a string, or (after `pd.to_datetime`) a timestamp
stored as epoch nanoseconds. -/
inductive Value where
  | vNull
  | vInt (n : Int)
  | vStr (s : String)
  | vTime (nanos : Int)
deriving DecidableEq, Repr

/-- A raw history record from the Tautulli JSON: a mapping from field name
to value, as an association list (Python dict keys are unique). -/
abbrev Raw := List (String × Value)

/-- Python exceptions that the script can raise. -/
inductive Exc where
  | keyError (k : String)
  | valueError (m : String)
  | opError (m : String)
deriving DecidableEq, Repr

/-- Log severities used by the script. -/
inductive LogLevel where
  | info
  | warning
  | error
deriving DecidableEq, Repr

/-- One emitted log line. -/
structure LogLine where
  level : LogLevel
  msg : String
deriving DecidableEq, Repr

/-- A row of the `plex_history` destination table, with the columns of the
CREATE TABLE statement; `reference_id` is the primary key. -/
structure TableRow where
  reference_id : Int
  watched_at : Value
  friendly_name : Value
  full_title : Value
  media_type : Value
  duration : Value
  ip_address : Value
  platform : Value
deriving DecidableEq, Repr

/-- The destination table: its rows in insertion order. -/
abbrev Table := List TableRow

/-- The field names of a raw record (the DataFrame columns it contributes). -/
def rawKeys (r : Raw) : List String := r.map (fun p => p.1)

/-- Cell lookup in a DataFrame row: a missing key or an explicit null both
read as NaN (`vNull`), exactly as `pd.DataFrame` represents them. -/
def cellOf (r : Raw) (c : String) : Value :=
  match r.find? (fun p => p.1 == c) with
  | some p => p.2
  | none => Value.vNull

/-- Is a cell the NaN/null value. -/
def isNull : Value → Bool
  | .vNull => true
  | _ => false

/-- The fixed target column list `cols` of the script. -/
def targetCols : List String :=
  ["reference_id", "date", "friendly_name", "full_title",
   "media_type", "duration", "ip_address", "platform"]

/-- Does some record of the batch carry field `c` (so that the DataFrame
has a column `c`). -/
def hasField (rs : List Raw) (c : String) : Bool :=
  rs.any (fun r => (rawKeys r).contains c)

/-- The column selection `df[[c for c in cols if c in df.columns]]`. -/
def selectCols (rs : List Raw) : List String :=
  targetCols.filter (fun c => hasField rs c)

/-- Parse a run of decimal digits onto an accumulator; any non-digit fails. -/
def parseNatDigits (acc : Nat) : List Char → Option Nat
  | [] => some acc
  | c :: cs => if c.isDigit then parseNatDigits (acc * 10 + (c.toNat - 48)) cs else none

/-- Python `int(str)`: strip surrounding whitespace, allow one sign, then
decimal digits only; anything else raises (here: `none`). -/
def pyParseInt (s : String) : Option Int :=
  match (s.toList.dropWhile (fun c => c.isWhitespace)).reverse.dropWhile
      (fun c => c.isWhitespace) |>.reverse with
  | [] => none
  | '-' :: cs =>
    match cs with
    | [] => none
    | _ :: _ => (parseNatDigits 0 cs).map (fun n => -(n : Int))
  | '+' :: cs =>
    match cs with
    | [] => none
    | _ :: _ => (parseNatDigits 0 cs).map (fun n => (n : Int))
  | cs => (parseNatDigits 0 cs).map (fun n => (n : Int))

/-- Python `int(x)` as used by `astype(int)` on an object column: integers
pass through, strings are parsed, anything else fails. -/
def pyIntCoerce : Value → Option Int
  | .vInt n => some n
  | .vStr s => pyParseInt s
  | _ => none

/-- One cell of `pd.to_datetime(df[\x27date\x27], unit=\x27s\x27)` — written here
without the quotes: an integer (or integer string) number of epoch seconds
becomes a timestamp of that many seconds in nanoseconds, NaN stays NaT,
and any other value raises ValueError. -/
def toDatetimeCell : Value → Except Exc Value
  | .vNull => .ok .vNull
  | .vInt n => .ok (.vTime (n * 1000000000))
  | .vStr s =>
    match pyParseInt s with
    | some n => .ok (.vTime (n * 1000000000))
    | none => .error (.valueError ("non convertible value " ++ s))
  | .vTime n => .ok (.vTime n)

/-- A DataFrame row after the `watched_at` column has been added: the raw
record plus the computed timestamp cell. -/
structure DfRow where
  raw : Raw
  watched : Value
deriving DecidableEq, Repr

/-- Apply `toDatetimeCell` down the `date` column, stopping at the first
bad cell as pandas does. -/
def datesOf : List Raw → Except Exc (List DfRow)
  | [] => .ok []
  | r :: rest =>
    match toDatetimeCell (cellOf r "date") with
    | .error e => .error e
    | .ok w =>
      match datesOf rest with
      | .error e => .error e
      | .ok ds => .ok (⟨r, w⟩ :: ds)

/-- The transform phase before the database connection: column selection,
`to_datetime` on the `date` column (KeyError if no record has `date`),
then dropping `date` and appending `watched_at` to the columns. -/
def transform (rs : List Raw) : Except Exc (List String × List DfRow) :=
  if (selectCols rs).contains "date" then
    match datesOf rs with
    | .error e => .error e
    | .ok rows =>
      .ok ((selectCols rs).filter (fun c => c != "date") ++ ["watched_at"], rows)
  else .error (.keyError "date")

/-- Does the row have a non-null `reference_id` cell (what
`dropna(subset=[...])` keeps). -/
def keyPresent (r : Raw) : Bool := !(isNull (cellOf r "reference_id"))

/-- Coerce the kept `reference_id` cells with `astype(int)`: the first
non-coercible cell raises ValueError for the whole column. -/
def coerceKeys : List DfRow → Except Exc (List (Int × DfRow))
  | [] => .ok []
  | dr :: rest =>
    match pyIntCoerce (cellOf dr.raw "reference_id") with
    | none => .error (.valueError "invalid literal for int with base 10")
    | some n =>
      match coerceKeys rest with
      | .error e => .error e
      | .ok ks => .ok ((n, dr) :: ks)

/-- The in-connection normalization steps: `dropna(subset=[reference_id])`
(KeyError if the column does not exist) followed by `astype(int)`. -/
def dropnaAstype (cols : List String) (rows : List DfRow) :
    Except Exc (List (Int × DfRow)) :=
  if cols.contains "reference_id" then
    coerceKeys (rows.filter (fun dr => keyPresent dr.raw))
  else .error (.keyError "reference_id")

/-- The whole normalizer of the spec (section 4.1): transform followed by
dropna/astype, as one pure function on the raw batch. -/
def normalizePhase (rs : List Raw) :
    Except Exc (List String × List (Int × DfRow)) :=
  match transform rs with
  | .error e => .error e
  | .ok cr =>
    match dropnaAstype cr.1 cr.2 with
    | .error e => .error e
    | .ok keyed => .ok (cr.1, keyed)

/-- Reading `row[c]` while building the insert parameters: KeyError when
`c` is not a DataFrame column, otherwise the cell (NaN for a record that
lacks the field). -/
def getCol (cols : List String) (dr : DfRow) (c : String) : Except Exc Value :=
  if cols.contains c then
    .ok (if c == "watched_at" then dr.watched else cellOf dr.raw c)
  else .error (.keyError c)

/-- Build the parameter record of one INSERT from a DataFrame row, reading
the columns in the order the Python dict literal reads them. -/
def rowParams (cols : List String) (k : Int) (dr : DfRow) : Except Exc TableRow :=
  match getCol cols dr "watched_at" with
  | .error e => .error e
  | .ok w =>
    match getCol cols dr "friendly_name" with
    | .error e => .error e
    | .ok fn =>
      match getCol cols dr "full_title" with
      | .error e => .error e
      | .ok ft =>
        match getCol cols dr "media_type" with
        | .error e => .error e
        | .ok mt =>
          match getCol cols dr "duration" with
          | .error e => .error e
          | .ok du =>
            match getCol cols dr "ip_address" with
            | .error e => .error e
            | .ok ip =>
              match getCol cols dr "platform" with
              | .error e => .error e
              | .ok pl => .ok ⟨k, w, fn, ft, mt, du, ip, pl⟩

/-- Does the table contain a row with this primary key. -/
def memKey (t : Table) (k : Int) : Bool :=
  t.any (fun row => row.reference_id == k)

/-- One `INSERT ... ON CONFLICT (reference_id) DO NOTHING`: a no-op with
rowcount 0 on a key conflict, otherwise an appended row with rowcount 1. -/
def insertRow (t : Table) (p : TableRow) : Table × Nat :=
  if memKey t p.reference_id then (t, 0) else (t ++ [p], 1)

/-- The writer on already-built parameter records: sequential inserts,
summing the rowcounts as the script's `count` does. -/
def insertBatch : Table → List TableRow → Table × Nat
  | t, [] => (t, 0)
  | t, p :: ps =>
    ((insertBatch (insertRow t p).1 ps).1,
     (insertRow t p).2 + (insertBatch (insertRow t p).1 ps).2)

/-- The insert loop of the script: build the parameters of each row, insert
it, and propagate the first exception (which aborts the uncommitted batch). -/
def loadLoop (cols : List String) : Table → List (Int × DfRow) → Except Exc (Table × Nat)
  | t, [] => .ok (t, 0)
  | t, kdr :: rest =>
    match rowParams cols kdr.1 kdr.2 with
    | .error e => .error e
    | .ok p =>
      match loadLoop cols (insertRow t p).1 rest with
      | .error e => .error e
      | .ok tc => .ok (tc.1, (insertRow t p).2 + tc.2)

/-- The body of a response: `.json()` raises, or the parsed JSON where
`parsed p` records whether the path `response.data.data` resolves to a list
of records (`none` means a KeyError when accessed). -/
inductive BodyParse where
  | invalid
  | parsed (path : Option (List Raw))
deriving DecidableEq, Repr

/-- What `requests.get` and the response handed the script in one cycle:
either the request raised (network error or timeout), or a response with a
status code and a body parse outcome. -/
inductive FetchOutcome where
  | raised (msg : String)
  | response (status : Nat) (body : BodyParse)
deriving DecidableEq, Repr

/-- The try-block of the fetch step: `requests.get` raising, a 4xx/5xx
status (`raise_for_status` raises exactly when `400 <= status < 600`), or
an unparseable body are the errors the `except` clause catches; otherwise
the parsed path is returned. -/
def tryFetch : FetchOutcome → Except String (Option (List Raw))
  | .raised m => .error m
  | .response status body =>
    if 400 ≤ status ∧ status < 600 then .error ("HTTP " ++ toString status)
    else
      match body with
      | .invalid => .error "Invalid JSON"
      | .parsed p => .ok p

/-- The result of one `fetch_history()` call: the log it emitted, the table
state it left committed, and the exception that escaped it, if any. -/
structure CycleRes where
  log : List LogLine
  table : Table
  exc : Option Exc
deriving DecidableEq, Repr

/-- Message rendering for a caught exception. -/
def excMsg : Exc → String
  | .keyError k => "KeyError: " ++ k
  | .valueError m => "ValueError: " ++ m
  | .opError m => "OperationalError: " ++ m

def startLine : LogLine := ⟨.info, "--- Starting ETL Job ---"⟩
def fetchErrLine (m : String) : LogLine :=
  ⟨.error, "Error fetching from Tautulli: " ++ m⟩
def noDataLine : LogLine := ⟨.warning, "No data found."⟩
def fetchedLine (n : Nat) : LogLine :=
  ⟨.info, "Fetched " ++ toString n ++ " records from Tautulli."⟩
def processingLine (n : Nat) : LogLine :=
  ⟨.info, "Processing " ++ toString n ++ " records for database insertion..."⟩
def insertedLine (c : Nat) : LogLine :=
  ⟨.info, "Successfully inserted " ++ toString c ++ " new records."⟩

/-- One full `fetch_history()` cycle. `dbExc` injects the behaviour of the
database connection: `some m` means `engine.connect()` raises an
OperationalError. An exception after the committed CREATE TABLE rolls the
uncommitted inserts back, so the table reverts to its input state. -/
def fetchHistory (fo : FetchOutcome) (dbExc : Option String) (t : Table) : CycleRes :=
  match tryFetch fo with
  | .error m => ⟨[startLine, fetchErrLine m], t, none⟩
  | .ok none => ⟨[startLine], t, some (.keyError "response")⟩
  | .ok (some hist) =>
    if hist.isEmpty then ⟨[startLine, noDataLine], t, none⟩
    else
      match transform hist with
      | .error e => ⟨[startLine, fetchedLine hist.length], t, some e⟩
      | .ok cr =>
        match dbExc with
        | some m =>
          ⟨[startLine, fetchedLine hist.length, processingLine hist.length],
           t, some (.opError m)⟩
        | none =>
          match dropnaAstype cr.1 cr.2 with
          | .error e =>
            ⟨[startLine, fetchedLine hist.length, processingLine hist.length],
             t, some e⟩
          | .ok keyed =>
            match loadLoop cr.1 t keyed with
            | .error e =>
              ⟨[startLine, fetchedLine hist.length, processingLine hist.length],
               t, some e⟩
            | .ok tc =>
              ⟨[startLine, fetchedLine hist.length, processingLine hist.length,
                insertedLine tc.2], tc.1, none⟩

def mainStartLine : LogLine := ⟨.info, "Starting ETL job..."⟩
def jobDoneLine : LogLine := ⟨.info, "Job finished successfully."⟩
def criticalLine (e : Exc) : LogLine :=
  ⟨.error, "Critical loop error: " ++ excMsg e⟩
def sleepLine : LogLine := ⟨.info, "Sleeping for 3600 seconds..."⟩

/-- One iteration of the `while True` loop in `__main__`: run the cycle,
catch anything it raised, log, and sleep. Its type has no exception
channel — nothing escapes an iteration. -/
def mainLoopIter (fo : FetchOutcome) (dbExc : Option String) (t : Table) :
    List LogLine × Table :=
  let r := fetchHistory fo dbExc t
  match r.exc with
  | none => (mainStartLine :: r.log ++ [jobDoneLine, sleepLine], r.table)
  | some e => (mainStartLine :: r.log ++ [criticalLine e, sleepLine], r.table)

/-- The service loop over a stream of cycle environments, returning one log
per cycle: every scheduled cycle runs, whatever earlier cycles did. -/
def runService (t : Table) : List (FetchOutcome × Option String) → List (List LogLine) × Table
  | [] => ([], t)
  | env :: rest =>
    ((mainLoopIter env.1 env.2 t).1 :: (runService (mainLoopIter env.1 env.2 t).2 rest).1,
     (runService (mainLoopIter env.1 env.2 t).2 rest).2)

/-- Seconds of a timestamp value stored in epoch nanoseconds, as
`Timestamp.timestamp()` re-derives them. -/
def tsToUnixSeconds : Value → Option Int
  | .vTime nanos => some (nanos.ediv 1000000000)
  | _ => none

/-- Two-digit zero padding for calendar rendering. -/
def pad2 (n : Nat) : String :=
  if n < 10 then "0" ++ toString n else toString n

/-- Civil date from a count of days since 1970-01-01 (proleptic Gregorian,
the standard era-based algorithm). -/
def civilFromDays (z0 : Int) : Int × Nat × Nat :=
  let z := z0 + 719468
  let era := z.ediv 146097
  let doe := (z - era * 146097).toNat
  let yoe := (doe - doe / 1460 + doe / 36524 - doe / 146096) / 365
  let doy := doe - (365 * yoe + yoe / 4 - yoe / 100)
  let mp := (5 * doy + 2) / 153
  let d := doy - (153 * mp + 2) / 5 + 1
  let m := if mp < 10 then mp + 3 else mp - 9
  (era * 400 + yoe + (if m ≤ 2 then 1 else 0), m, d)

/-- Render an epoch-nanosecond timestamp as an ISO-8601 UTC string, the
calendar view pandas prints for a `Timestamp`. -/
def renderTs (nanos : Int) : String :=
  let secs := nanos.ediv 1000000000
  let days := secs.ediv 86400
  let sod := (secs.emod 86400).toNat
  let ymd := civilFromDays days
  toString ymd.1 ++ "-" ++ pad2 ymd.2.1 ++ "-" ++ pad2 ymd.2.2 ++ "T" ++
    pad2 (sod / 3600) ++ ":" ++ pad2 (sod % 3600 / 60) ++ ":" ++ pad2 (sod % 60) ++ "Z"

/-! Helper lemmas about the upsert writer. -/

theorem memKey_append_single (t : Table) (p : TableRow) (k : Int) :
    memKey (t ++ [p]) k = (memKey t k || (p.reference_id == k)) := by
  simp [memKey, List.any_append]

theorem memKey_insertRow_self (t : Table) (p : TableRow) :
    memKey (insertRow t p).1 p.reference_id = true := by
  unfold insertRow
  by_cases h : memKey t p.reference_id = true
  · simp [h]
  · simp only [Bool.not_eq_true] at h
    simp [h, memKey_append_single]

theorem memKey_insertRow_mono (t : Table) (p : TableRow) (k : Int)
    (h : memKey t k = true) : memKey (insertRow t p).1 k = true := by
  unfold insertRow
  by_cases hm : memKey t p.reference_id = true
  · simp [hm, h]
  · simp only [Bool.not_eq_true] at hm
    simp [hm, memKey_append_single, h]

theorem memKey_insertBatch_mono (b : List TableRow) :
    ∀ t k, memKey t k = true → memKey (insertBatch t b).1 k = true := by
  induction b with
  | nil => intro t k h; simpa [insertBatch] using h
  | cons p ps ih =>
    intro t k h
    simp only [insertBatch]
    exact ih _ _ (memKey_insertRow_mono t p k h)

theorem batch_keys_present (b : List TableRow) :
    ∀ t p, p ∈ b → memKey (insertBatch t b).1 p.reference_id = true := by
  induction b with
  | nil => intro t p h; cases h
  | cons q qs ih =>
    intro t p hp
    rcases List.mem_cons.mp hp with h | h
    · subst h
      simp only [insertBatch]
      exact memKey_insertBatch_mono qs _ _ (memKey_insertRow_self t p)
    · simp only [insertBatch]
      exact ih _ p h

theorem insertBatch_noop (b : List TableRow) :
    ∀ t, (∀ p ∈ b, memKey t p.reference_id = true) → insertBatch t b = (t, 0) := by
  induction b with
  | nil => intro t _; rfl
  | cons q qs ih =>
    intro t h
    have hq : memKey t q.reference_id = true := h q (List.mem_cons_self q qs)
    have hrow : insertRow t q = (t, 0) := by simp [insertRow, hq]
    have hrest : insertBatch t qs = (t, 0) :=
      ih t (fun p hp => h p (List.mem_cons_of_mem q hp))
    simp [insertBatch, hrow, hrest]

/-- C2. Writing the same batch of normalized records twice is idempotent:
the second pass leaves the table unchanged and reports 0 newly inserted
rows. -/
theorem c2_upsert_idempotent (t : Table) (b : List TableRow) :
    insertBatch (insertBatch t b).1 b = ((insertBatch t b).1, 0) :=
  insertBatch_noop b _ (fun p hp => batch_keys_present b t p hp)

theorem insertRow_extends (t : Table) (p : TableRow) :
    ∃ s, (insertRow t p).1 = t ++ s := by
  unfold insertRow
  by_cases h : memKey t p.reference_id = true
  · exact ⟨[], by simp [h]⟩
  · simp only [Bool.not_eq_true] at h
    exact ⟨[p], by simp [h]⟩

theorem loadLoop_extends (cols : List String) (l : List (Int × DfRow)) :
    ∀ t tc, loadLoop cols t l = .ok tc → ∃ s, tc.1 = t ++ s := by
  induction l with
  | nil =>
    intro t tc h
    simp only [loadLoop, Except.ok.injEq] at h
    exact ⟨[], by simp [← h]⟩
  | cons kdr rest ih =>
    intro t tc h
    simp only [loadLoop] at h
    rcases hp : rowParams cols kdr.1 kdr.2 with e | p
    · simp only [hp] at h; cases h
    · simp only [hp] at h
      rcases hl : loadLoop cols (insertRow t p).1 rest with e | tc1
      · simp only [hl] at h; cases h
      · simp only [hl, Except.ok.injEq] at h
        obtain ⟨s1, hs1⟩ := ih _ _ hl
        obtain ⟨s0, hs0⟩ := insertRow_extends t p
        refine ⟨s0 ++ s1, ?_⟩
        rw [← h]
        simp only [hs1, hs0, List.append_assoc]

theorem fetchHistory_table_extends (fo : FetchOutcome) (d : Option String) (t : Table) :
    ∃ s, (fetchHistory fo d t).table = t ++ s := by
  unfold fetchHistory
  rcases tryFetch fo with m | p
  · exact ⟨[], by simp⟩
  · rcases p with _ | hist
    · exact ⟨[], by simp⟩
    · simp only
      by_cases he : hist.isEmpty
      · simp [he]
      · simp only [he, if_false]
        rcases transform hist with e | cr
        · exact ⟨[], by simp⟩
        · simp only
          rcases d with _ | m
          · rcases hda : dropnaAstype cr.1 cr.2 with e | keyed
            · exact ⟨[], by simp⟩
            · simp only
              rcases hl : loadLoop cr.1 t keyed with e | tc
              · exact ⟨[], by simp⟩
              · simpa using loadLoop_extends cr.1 keyed t tc hl
          · exact ⟨[], by simp⟩

/-- C9. Destination rows are never updated or deleted: an insert whose key
already exists is a silent no-op leaving the table untouched, and any full
cycle leaves the starting table as an unchanged prefix of the final one
(rows can only be appended). -/
theorem c9_rows_immutable :
    (∀ t p, memKey t p.reference_id = true → insertRow t p = (t, 0))
    ∧ (∀ fo d t, ∃ s, (fetchHistory fo d t).table = t ++ s) := by
  constructor
  · intro t p h; simp [insertRow, h]
  · exact fetchHistory_table_extends

/-! Counting machinery for the newly-inserted count. -/

/-- Membership of a key in a list of keys. -/
def hasKey (ks : List Int) (k : Int) : Bool := ks.any (fun x => x == k)

/-- The primary keys of a table, in row order. -/
def keysOf (t : Table) : List Int := t.map (fun r => r.reference_id)

/-- The keys a batch actually inserts when the table already holds `ks`:
first occurrences of keys not yet seen. -/
def freshKeys (ks : List Int) : List TableRow → List Int
  | [] => []
  | p :: ps =>
    if hasKey ks p.reference_id then freshKeys ks ps
    else p.reference_id :: freshKeys (p.reference_id :: ks) ps

theorem hasKey_cons (a k : Int) (ks : List Int) :
    hasKey (a :: ks) k = ((a == k) || hasKey ks k) := by
  simp [hasKey]

theorem hasKey_true_iff (ks : List Int) (k : Int) :
    hasKey ks k = true ↔ k ∈ ks := by
  simp [hasKey, List.any_eq_true]

theorem memKey_eq_hasKey (t : Table) (k : Int) :
    memKey t k = hasKey (keysOf t) k := by
  induction t with
  | nil => rfl
  | cons r rs ih =>
    simp only [memKey, keysOf, hasKey, List.any_cons, List.map_cons] at ih ⊢
    rw [ih]

theorem freshKeys_cons_mem (ks : List Int) (p : TableRow) (ps : List TableRow)
    (hc : hasKey ks p.reference_id = true) :
    freshKeys ks (p :: ps) = freshKeys ks ps := by
  simp [freshKeys, hc]

theorem freshKeys_cons_new (ks : List Int) (p : TableRow) (ps : List TableRow)
    (hc : hasKey ks p.reference_id = false) :
    freshKeys ks (p :: ps) = p.reference_id :: freshKeys (p.reference_id :: ks) ps := by
  simp [freshKeys, hc]

theorem insertBatch_count_freshKeys (b : List TableRow) :
    ∀ t ks, (∀ k, memKey t k = hasKey ks k) →
    (insertBatch t b).2 = (freshKeys ks b).length := by
  induction b with
  | nil => intro t ks _; rfl
  | cons p ps ih =>
    intro t ks h
    by_cases hc : hasKey ks p.reference_id = true
    · have hm : memKey t p.reference_id = true := by rw [h, hc]
      have hrow : insertRow t p = (t, 0) := by simp [insertRow, hm]
      simp [insertBatch, hrow, freshKeys, hc, ih t ks h]
    · simp only [Bool.not_eq_true] at hc
      have hm : memKey t p.reference_id = false := by rw [h, hc]
      have hrow : insertRow t p = (t ++ [p], 1) := by simp [insertRow, hm]
      have hinv : ∀ k, memKey (t ++ [p]) k = hasKey (p.reference_id :: ks) k := by
        intro k
        rw [memKey_append_single, hasKey_cons, h, Bool.or_comm]
      simp [insertBatch, hrow, freshKeys, hc, ih _ _ hinv, Nat.add_comm]

theorem freshKeys_disjoint_nodup (b : List TableRow) :
    ∀ ks, (∀ x ∈ freshKeys ks b, hasKey ks x = false) ∧ (freshKeys ks b).Nodup := by
  induction b with
  | nil => intro ks; exact ⟨fun x hx => absurd hx (List.not_mem_nil x), List.nodup_nil⟩
  | cons p ps ih =>
    intro ks
    by_cases hc : hasKey ks p.reference_id = true
    · simpa [freshKeys, hc] using ih ks
    · simp only [Bool.not_eq_true] at hc
      obtain ⟨hdisj, hnd⟩ := ih (p.reference_id :: ks)
      have hboth : ∀ x ∈ freshKeys (p.reference_id :: ks) ps,
          x ≠ p.reference_id ∧ hasKey ks x = false := by
        intro x hx
        have := hdisj x hx
        rw [hasKey_cons] at this
        have h1 : (p.reference_id == x) = false := by
          cases hpx : (p.reference_id == x) <;> simp [hpx] at this ⊢
        have h2 : hasKey ks x = false := by
          cases hkx : hasKey ks x <;> simp [hkx, h1] at this ⊢
        refine ⟨fun hxe => ?_, h2⟩
        rw [hxe] at h1
        simp at h1
      constructor
      · intro x hx
        rw [freshKeys_cons_new ks p ps hc, List.mem_cons] at hx
        rcases hx with hx | hx
        · rw [hx]; exact hc
        · exact (hboth x hx).2
      · rw [freshKeys_cons_new ks p ps hc]
        exact List.Nodup.cons
          (fun hmem => ((hboth p.reference_id hmem).1 rfl).elim) hnd

theorem freshKeys_subset (b : List TableRow) :
    ∀ ks x, x ∈ freshKeys ks b → x ∈ b.map (fun p => p.reference_id) := by
  induction b with
  | nil => intro ks x hx; cases hx
  | cons p ps ih =>
    intro ks x hx
    by_cases hc : hasKey ks p.reference_id = true
    · rw [freshKeys_cons_mem ks p ps hc] at hx
      simp only [List.map_cons, List.mem_cons]
      exact Or.inr (ih ks x hx)
    · simp only [Bool.not_eq_true] at hc
      rw [freshKeys_cons_new ks p ps hc, List.mem_cons] at hx
      simp only [List.map_cons, List.mem_cons]
      rcases hx with hx | hx
      · exact Or.inl hx
      · exact Or.inr (ih _ x hx)

theorem insertBatch_count_le_dedup (t : Table) (b : List TableRow) :
    (insertBatch t b).2 ≤ ((b.map (fun p => p.reference_id)).dedup).length := by
  rw [insertBatch_count_freshKeys b t (keysOf t) (fun k => memKey_eq_hasKey t k)]
  have hnd := (freshKeys_disjoint_nodup b (keysOf t)).2
  have hsub : freshKeys (keysOf t) b ⊆ (b.map (fun p => p.reference_id)).dedup :=
    fun x hx => List.mem_dedup.mpr (freshKeys_subset b _ x hx)
  exact (hnd.subperm hsub).length_le

theorem filter_key_nil (t : Table) (k : Int) (h : memKey t k = false) :
    t.filter (fun r => r.reference_id == k) = [] := by
  rw [List.filter_eq_nil_iff]
  intro r hr
  simp only [memKey] at h
  have := List.any_eq_false.mp h r hr
  simpa using this

theorem filter_stable (b : List TableRow) (k : Int) :
    ∀ t, memKey t k = true →
    (insertBatch t b).1.filter (fun r => r.reference_id == k)
      = t.filter (fun r => r.reference_id == k) := by
  induction b with
  | nil => intro t _; rfl
  | cons p ps ih =>
    intro t h
    by_cases hm : memKey t p.reference_id = true
    · have hrow : insertRow t p = (t, 0) := by simp [insertRow, hm]
      simp [insertBatch, hrow, ih t h]
    · simp only [Bool.not_eq_true] at hm
      have hrow : insertRow t p = (t ++ [p], 1) := by simp [insertRow, hm]
      have hne : (p.reference_id == k) = false := by
        cases hpk : (p.reference_id == k)
        · rfl
        · rw [eq_of_beq hpk] at hm
          rw [hm] at h
          cases h
      have h2 : memKey (t ++ [p]) k = true := by
        rw [memKey_append_single, h]
        simp
      have := ih (t ++ [p]) h2
      simp [insertBatch, hrow, this, List.filter_append, hne]

theorem insertBatch_first_occurrence (b : List TableRow) (k : Int) :
    ∀ t r, memKey t k = false →
    b.find? (fun p => p.reference_id == k) = some r →
    (insertBatch t b).1.filter (fun row => row.reference_id == k) = [r] := by
  induction b with
  | nil => intro t r _ hf; cases hf
  | cons p ps ih =>
    intro t r hmem hf
    rw [List.find?_cons] at hf
    cases hpk : (p.reference_id == k) with
    | true =>
      simp only [hpk] at hf
      have hr : p = r := by injection hf
      subst hr
      have hm : memKey t p.reference_id = false := by
        rw [eq_of_beq hpk]; exact hmem
      have hrow : insertRow t p = (t ++ [p], 1) := by simp [insertRow, hm]
      have h2 : memKey (t ++ [p]) k = true := by
        rw [memKey_append_single, hpk]
        simp
      have hst := filter_stable ps k (t ++ [p]) h2
      simp [insertBatch, hrow, hst, List.filter_append, hpk,
        filter_key_nil t k hmem]
    | false =>
      simp only [hpk] at hf
      by_cases hm : memKey t p.reference_id = true
      · have hrow : insertRow t p = (t, 0) := by simp [insertRow, hm]
        simp only [insertBatch, hrow]
        exact ih t r hmem hf
      · simp only [Bool.not_eq_true] at hm
        have hrow : insertRow t p = (t ++ [p], 1) := by simp [insertRow, hm]
        have h2 : memKey (t ++ [p]) k = false := by
          rw [memKey_append_single, hmem, hpk]
          rfl
        simp only [insertBatch, hrow]
        exact ih (t ++ [p]) r h2 hf

theorem insertBatch_length (b : List TableRow) :
    ∀ t, (insertBatch t b).1.length = t.length + (insertBatch t b).2 := by
  induction b with
  | nil => intro t; rfl
  | cons p ps ih =>
    intro t
    by_cases hm : memKey t p.reference_id = true
    · have hrow : insertRow t p = (t, 0) := by simp [insertRow, hm]
      simp [insertBatch, hrow, ih t]
    · simp only [Bool.not_eq_true] at hm
      have hrow : insertRow t p = (t ++ [p], 1) := by simp [insertRow, hm]
      simp [insertBatch, hrow, ih (t ++ [p])]
      omega

/-- C10. If a key `k` is not yet in the table and occurs (possibly several
times) in the batch, then after the write the table holds exactly one row
with key `k`, namely the first batch record carrying it; the table grows by
exactly the reported count, and that count never exceeds the number of
distinct keys in the batch. -/
theorem c10_duplicate_keys_single_insert (t : Table) (b : List TableRow)
    (k : Int) (r : TableRow)
    (hk : memKey t k = false)
    (hf : b.find? (fun p => p.reference_id == k) = some r) :
    (insertBatch t b).1.filter (fun row => row.reference_id == k) = [r]
    ∧ (insertBatch t b).1.length = t.length + (insertBatch t b).2
    ∧ (insertBatch t b).2 ≤ ((b.map (fun p => p.reference_id)).dedup).length :=
  ⟨insertBatch_first_occurrence b k t r hk hf,
   insertBatch_length b t,
   insertBatch_count_le_dedup t b⟩

/-! Concrete records used to instantiate the theorems. -/

/-- A fully-populated valid record with key 100. -/
def rec100 : Raw :=
  [("reference_id", .vInt 100), ("date", .vInt 1700000000),
   ("friendly_name", .vStr "u1"), ("full_title", .vStr "t1"),
   ("media_type", .vStr "movie"), ("duration", .vInt 60),
   ("ip_address", .vStr "ip1"), ("platform", .vStr "web")]

/-- A fully-populated valid record with key 200. -/
def rec200 : Raw :=
  [("reference_id", .vInt 200), ("date", .vInt 1700000100),
   ("friendly_name", .vStr "u2"), ("full_title", .vStr "t2"),
   ("media_type", .vStr "tv"), ("duration", .vInt 61),
   ("ip_address", .vStr "ip2"), ("platform", .vStr "tvos")]

/-- A record whose unique-key field is a non-integer string. -/
def recAbc : Raw :=
  [("reference_id", .vStr "abc"), ("date", .vInt 1700000200),
   ("friendly_name", .vStr "u3"), ("full_title", .vStr "t3"),
   ("media_type", .vStr "tv"), ("duration", .vInt 62),
   ("ip_address", .vStr "ip3"), ("platform", .vStr "web")]

/-- A record with a valid key and date but all optional fields missing. -/
def recBare : Raw := [("reference_id", .vInt 1), ("date", .vInt 0)]

/-- A record with an explicit null unique-key field. -/
def recNullKey : Raw := [("reference_id", .vNull), ("date", .vInt 10)]

/-- A record with no unique-key field at all. -/
def recNoKey : Raw := [("date", .vInt 11), ("friendly_name", .vStr "u4")]

/-- The destination row the writer builds from `rec100`. -/
def row100 : TableRow :=
  ⟨100, .vTime 1700000000000000000, .vStr "u1", .vStr "t1",
   .vStr "movie", .vInt 60, .vStr "ip1", .vStr "web"⟩

/-! C1: failure isolation at the loop boundary. -/

theorem mainLoopIter_head (fo : FetchOutcome) (d : Option String) (t : Table) :
    (mainLoopIter fo d t).1.head? = some mainStartLine := by
  cases h : (fetchHistory fo d t).exc <;> simp [mainLoopIter, h]

theorem runService_length (envs : List (FetchOutcome × Option String)) :
    ∀ t, (runService t envs).1.length = envs.length := by
  induction envs with
  | nil => intro t; rfl
  | cons env rest ih => intro t; simp [runService, ih]

theorem runService_heads (envs : List (FetchOutcome × Option String)) :
    ∀ t l, l ∈ (runService t envs).1 → l.head? = some mainStartLine := by
  induction envs with
  | nil => intro t l h; cases h
  | cons env rest ih =>
    intro t l h
    rcases List.mem_cons.mp h with h | h
    · rw [h]; exact mainLoopIter_head env.1 env.2 t
    · exact ih _ l h

/-- C1. Failure isolation: every scheduled cycle runs (one log per scheduled
cycle, each beginning with the loop's start line, however earlier cycles
failed); a cycle that raises any exception — normalize or load included — is
caught by the loop, which appends a logged critical error and keeps the
committed table; and an exception in the fetch step is already caught inside
the cycle and logged there. Nothing propagates: the iteration's result type
has no exception channel. -/
theorem c1_failure_isolation :
    (∀ t envs, (runService t envs).1.length = envs.length)
    ∧ (∀ t envs, ∀ l ∈ (runService t envs).1, l.head? = some mainStartLine)
    ∧ (∀ fo d t e, (fetchHistory fo d t).exc = some e →
        mainLoopIter fo d t =
          (mainStartLine :: (fetchHistory fo d t).log ++ [criticalLine e, sleepLine],
           (fetchHistory fo d t).table))
    ∧ (∀ fo d t m, tryFetch fo = Except.error m →
        (fetchHistory fo d t).exc = none
          ∧ fetchErrLine m ∈ (fetchHistory fo d t).log) := by
  refine ⟨fun t envs => runService_length envs t,
          fun t envs => runService_heads envs t, ?_, ?_⟩
  · intro fo d t e h
    simp [mainLoopIter, h]
  · intro fo d t m h
    simp [fetchHistory, h]

/-- Closed instance of C1: the batch whose key cannot be coerced raises a
ValueError out of the cycle, and the loop converts it into a logged
critical failure with the table kept. -/
theorem c1_witness :
    mainLoopIter (.response 200 (.parsed (some [recAbc]))) none [] =
      (mainStartLine ::
        (fetchHistory (.response 200 (.parsed (some [recAbc]))) none []).log ++
        [criticalLine (.valueError "invalid literal for int with base 10"), sleepLine],
       (fetchHistory (.response 200 (.parsed (some [recAbc]))) none []).table) :=
  c1_failure_isolation.2.2.1 (.response 200 (.parsed (some [recAbc]))) none []
    (.valueError "invalid literal for int with base 10") (by decide)

/-! C5: which fetch outcomes the try/except recovers locally. -/

/-- C5 (amended). A raised request (network error or timeout), a 4xx/5xx
status (the `400 <= status < 600` range `raise_for_status` raises on), or
an unparseable body is caught inside the cycle: the fetch failure is
logged, the table is untouched, no exception escapes, and neither
normalization nor load runs. -/
theorem c5_fetch_failures_local :
    (∀ m d t, fetchHistory (.raised m) d t = ⟨[startLine, fetchErrLine m], t, none⟩)
    ∧ (∀ s b d t, 400 ≤ s → s < 600 →
        fetchHistory (.response s b) d t =
          ⟨[startLine, fetchErrLine ("HTTP " ++ toString s)], t, none⟩)
    ∧ (∀ s d t, ¬ (400 ≤ s ∧ s < 600) →
        fetchHistory (.response s .invalid) d t =
          ⟨[startLine, fetchErrLine "Invalid JSON"], t, none⟩) := by
  refine ⟨fun m d t => rfl, ?_, ?_⟩
  · intro s b d t hs1 hs2
    simp [fetchHistory, tryFetch, hs1, hs2]
  · intro s d t hs
    simp [fetchHistory, tryFetch, hs]

/-- Closed instance of C5: a 500 response is caught and logged inside the
cycle with no table change. -/
theorem c5_witness :
    fetchHistory (.response 500 .invalid) none [] =
      ⟨[startLine, fetchErrLine ("HTTP " ++ toString 500)], [], none⟩ :=
  c5_fetch_failures_local.2.1 500 .invalid none [] (by decide) (by decide)

/-- Counterexample to C5 as stated: a non-2xx status below 400 (here 301)
with a parseable body is NOT treated as a fetch failure — the cycle
proceeds through normalize and load and inserts the row. -/
theorem c5_counterexample :
    fetchHistory (.response 301 (.parsed (some [rec100]))) none [] =
      ⟨[startLine, fetchedLine 1, processingLine 1, insertedLine 1],
       [row100], none⟩ := by
  decide

/-! C6: an empty history batch ends the cycle quietly. -/

/-- C6. A successful fetch with zero history items logs a warning and ends
the cycle: the writer is never reached (the table is returned untouched and
no insert-related line is logged) and no exception escapes. -/
theorem c6_empty_fetch_ends_cycle (d : Option String) (t : Table)
    (s : Nat) (hs : s < 400) :
    fetchHistory (.response s (.parsed (some []))) d t =
      ⟨[startLine, noDataLine], t, none⟩ := by
  have h4 : ¬ (400 ≤ s) := Nat.not_le.mpr hs
  simp [fetchHistory, tryFetch, h4]

/-- Closed instance of C6 at status 200 with a database-failure injection:
even then nothing happens after the empty-batch check. -/
theorem c6_witness :
    fetchHistory (.response 200 (.parsed (some []))) (some "down") [] =
      ⟨[startLine, noDataLine], [], none⟩ :=
  c6_empty_fetch_ends_cycle (some "down") [] 200 (by decide)

/-! C3: a present but non-integer-coercible unique key. -/

/-- Counterexample to C3 as stated: with the batch `[rec100, recAbc, rec200]`
(two valid records and one whose key is the string abc), the claim predicts
2 inserted rows and no cycle failure; in fact the table stays empty and an
exception escapes the cycle. -/
theorem c3_counterexample :
    (fetchHistory (.response 200 (.parsed (some [rec100, recAbc, rec200]))) none []).table = []
    ∧ (fetchHistory (.response 200 (.parsed (some [rec100, recAbc, rec200]))) none []).exc
        ≠ none := by
  decide

/-- C3 (amended). A record whose unique-key field is present but not
integer-coercible makes the astype(int) coercion raise ValueError for the
whole column: the cycle fails with the exception escaping to the driver
loop, zero rows are inserted (the table is unchanged from any starting
state), and the two valid records of the batch are not written either. -/
theorem c3_noncoercible_key_aborts_cycle (t : Table) :
    fetchHistory (.response 200 (.parsed (some [rec100, recAbc, rec200]))) none t =
      ⟨[startLine, fetchedLine 3, processingLine 3], t,
       some (.valueError "invalid literal for int with base 10")⟩ := by
  rfl

/-! C7: tolerance of missing optional fields. -/

/-- Counterexample to C7 as stated: a batch whose single record has a valid
key and date but no optional fields is not written with nulls — building the
insert parameters raises KeyError on the absent `friendly_name` column and
the cycle fails with nothing written. -/
theorem c7_counterexample :
    fetchHistory (.response 200 (.parsed (some [recBare]))) none [] =
      ⟨[startLine, fetchedLine 1, processingLine 1], [],
       some (.keyError "friendly_name")⟩ := by
  decide

/-! C4: what the normalizer produces when it completes. -/

/-- Is an Except a success. -/
def exOk {α : Type} : Except Exc α → Bool
  | .ok _ => true
  | .error _ => false

instance {α β : Type} [DecidableEq α] [DecidableEq β] :
    DecidableEq (Except α β) := fun a b =>
  match a, b with
  | .ok x, .ok y =>
    if h : x = y then .isTrue (by rw [h]) else .isFalse (fun hc => by cases hc; exact h rfl)
  | .error x, .error y =>
    if h : x = y then .isTrue (by rw [h]) else .isFalse (fun hc => by cases hc; exact h rfl)
  | .ok _, .error _ => .isFalse (fun hc => by cases hc)
  | .error _, .ok _ => .isFalse (fun hc => by cases hc)

theorem contains_true_iff {α : Type} [BEq α] [LawfulBEq α] (l : List α) (a : α) :
    l.contains a = true ↔ a ∈ l :=
  List.elem_iff

theorem selectCols_contains (rs : List Raw) (c : String) :
    (selectCols rs).contains c = true ↔ (c ∈ targetCols ∧ hasField rs c = true) := by
  rw [contains_true_iff, selectCols, List.mem_filter]

theorem datesOf_ok (rs : List Raw)
    (h : ∀ r ∈ rs, exOk (toDatetimeCell (cellOf r "date")) = true) :
    ∃ rows, datesOf rs = .ok rows ∧ rows.map DfRow.raw = rs := by
  induction rs with
  | nil => exact ⟨[], rfl, rfl⟩
  | cons r rest ih =>
    have hr := h r (List.mem_cons_self r rest)
    rcases hv : toDatetimeCell (cellOf r "date") with e | w
    · rw [hv] at hr; simp [exOk] at hr
    · obtain ⟨rows, hds, hmap⟩ := ih (fun x hx => h x (List.mem_cons_of_mem r hx))
      exact ⟨⟨r, w⟩ :: rows, by simp [datesOf, hv, hds], by simp [hmap]⟩

theorem coerceKeys_ok (l : List DfRow)
    (h : ∀ dr ∈ l, (pyIntCoerce (cellOf dr.raw "reference_id")).isSome = true) :
    ∃ ks, coerceKeys l = .ok ks ∧ ks.map (fun x => x.2) = l := by
  induction l with
  | nil => exact ⟨[], rfl, rfl⟩
  | cons dr rest ih =>
    have hd := h dr (List.mem_cons_self dr rest)
    rcases hv : pyIntCoerce (cellOf dr.raw "reference_id") with _ | n
    · rw [hv] at hd; simp at hd
    · obtain ⟨ks, hck, hmap⟩ := ih (fun x hx => h x (List.mem_cons_of_mem dr hx))
      exact ⟨(n, dr) :: ks, by simp [coerceKeys, hv, hck], by simp [hmap]⟩

theorem map_raw_filter (rows : List DfRow) :
    (rows.filter (fun dr => keyPresent dr.raw)).map DfRow.raw
      = (rows.map DfRow.raw).filter keyPresent := by
  induction rows with
  | nil => rfl
  | cons dr rest ih =>
    cases hk : keyPresent dr.raw <;> simp [List.filter_cons, hk, ih]

/-- Counterexample to C4 as stated: a batch holding one record with a
present, integer-coercible key (`rec100`) alongside the non-coercible
`recAbc` yields no normalizer output at all — the normalizer raises instead
of producing one record for the coercible one. -/
theorem c4_counterexample :
    normalizePhase [recAbc, rec100] =
      .error (.valueError "invalid literal for int with base 10")
    ∧ (pyIntCoerce (cellOf rec100 "reference_id")).isSome = true := by
  decide

/-- C4 (amended). When normalization completes — some record carries the
date field, some record carries the unique-key field, every date cell
converts, and every present non-null key is integer-coercible — the
normalizer output drops exactly the records with a null or missing key and
produces one normalized row per remaining raw record, in order. -/
theorem c4_normalizer_output (rs : List Raw)
    (hdate : hasField rs "date" = true)
    (hkey : hasField rs "reference_id" = true)
    (hdok : ∀ r ∈ rs, exOk (toDatetimeCell (cellOf r "date")) = true)
    (hcoerce : ∀ r ∈ rs, keyPresent r = true →
      (pyIntCoerce (cellOf r "reference_id")).isSome = true) :
    ∃ cols keyed, normalizePhase rs = .ok (cols, keyed)
      ∧ keyed.map (fun x => x.2.raw) = rs.filter keyPresent := by
  obtain ⟨rows, hds, hmap⟩ := datesOf_ok rs hdok
  have hcd : "date" ∈ selectCols rs :=
    (contains_true_iff _ _).mp ((selectCols_contains rs "date").mpr ⟨by decide, hdate⟩)
  have htrans : transform rs =
      .ok ((selectCols rs).filter (fun c => c != "date") ++ ["watched_at"], rows) := by
    simp [transform, hcd, hds]
  have hcref : "reference_id" ∈ selectCols rs :=
    (contains_true_iff _ _).mp
      ((selectCols_contains rs "reference_id").mpr ⟨by decide, hkey⟩)
  have hkept : ∀ dr ∈ rows.filter (fun dr => keyPresent dr.raw),
      (pyIntCoerce (cellOf dr.raw "reference_id")).isSome = true := by
    intro dr hdr
    have h1 : dr ∈ rows := (List.mem_filter.mp hdr).1
    have h2 : keyPresent dr.raw = true := (List.mem_filter.mp hdr).2
    have h3 : dr.raw ∈ rs := by
      rw [← hmap]
      exact List.mem_map_of_mem DfRow.raw h1
    exact hcoerce dr.raw h3 h2
  obtain ⟨ks, hck, hksmap⟩ := coerceKeys_ok _ hkept
  refine ⟨(selectCols rs).filter (fun c => c != "date") ++ ["watched_at"], ks, ?_, ?_⟩
  · simp [normalizePhase, htrans, dropnaAstype, hcref, hck]
  · calc ks.map (fun x => x.2.raw)
        = (ks.map (fun x => x.2)).map DfRow.raw := by rw [List.map_map]; rfl
      _ = (rows.filter (fun dr => keyPresent dr.raw)).map DfRow.raw := by rw [hksmap]
      _ = (rows.map DfRow.raw).filter keyPresent := map_raw_filter rows
      _ = rs.filter keyPresent := by rw [hmap]

/-- Closed instance of C4 (amended) on a batch with one valid record, one
null-key record and one missing-key record. -/
theorem c4_witness :
    ∃ cols keyed,
      normalizePhase [rec100, recNullKey, recNoKey] = .ok (cols, keyed)
      ∧ keyed.map (fun x => x.2.raw)
          = [rec100, recNullKey, recNoKey].filter keyPresent :=
  c4_normalizer_output [rec100, recNullKey, recNoKey]
    (by decide) (by decide) (by decide) (by decide)

/-! C7 (amended): column selection and null tolerance. -/

/-- The target columns other than the key and the date. -/
def optTargetCols : List String :=
  ["friendly_name", "full_title", "media_type", "duration",
   "ip_address", "platform"]

theorem transform_ok_inv (rs : List Raw) (cols : List String) (rows : List DfRow)
    (h : transform rs = .ok (cols, rows)) :
    cols = (selectCols rs).filter (fun c => c != "date") ++ ["watched_at"]
      ∧ datesOf rs = .ok rows := by
  unfold transform at h
  by_cases hd : (selectCols rs).contains "date" = true
  · rw [if_pos hd] at h
    rcases hds : datesOf rs with e | rows0
    · simp only [hds] at h
      cases h
    · simp only [hds, Except.ok.injEq, Prod.mk.injEq] at h
      obtain ⟨hc, hr⟩ := h
      subst hr
      exact ⟨hc.symm, rfl⟩
  · rw [if_neg hd] at h
    cases h

/-- C7 (amended). For a batch the transform accepts: the produced column
set is exactly the target fields present somewhere in the batch (minus
`date`, plus `watched_at`); if additionally every optional target field
occurs in at least one record of the batch, building the insert parameters
of any row succeeds, reading each cell with `cellOf`; and a field missing
from a record reads as null — so such a record is written with nulls
rather than erroring. -/
theorem c7_field_selection_tolerance (rs : List Raw) (cols : List String)
    (rows : List DfRow) (h : transform rs = .ok (cols, rows)) :
    (∀ c, cols.contains c = true ↔
      (c = "watched_at" ∨ (c ∈ targetCols ∧ c ≠ "date" ∧ hasField rs c = true)))
    ∧ ((∀ c ∈ optTargetCols, hasField rs c = true) →
        ∀ (k : Int) (dr : DfRow), rowParams cols k dr =
          .ok ⟨k, dr.watched, cellOf dr.raw "friendly_name",
               cellOf dr.raw "full_title", cellOf dr.raw "media_type",
               cellOf dr.raw "duration", cellOf dr.raw "ip_address",
               cellOf dr.raw "platform"⟩)
    ∧ (∀ (r : Raw) (c : String),
        (rawKeys r).contains c = false → cellOf r c = Value.vNull) := by
  obtain ⟨hcols, -⟩ := transform_ok_inv rs cols rows h
  subst hcols
  have hmem : ∀ c, ((selectCols rs).filter (fun c => c != "date")
      ++ ["watched_at"]).contains c = true ↔
      (c = "watched_at" ∨ (c ∈ targetCols ∧ c ≠ "date" ∧ hasField rs c = true)) := by
    intro c
    rw [contains_true_iff, List.mem_append, List.mem_filter, List.mem_singleton]
    simp only [selectCols, List.mem_filter, bne_iff_ne]
    tauto
  refine ⟨hmem, ?_, ?_⟩
  · intro hopt k dr
    have hS1 : "friendly_name" ∈ selectCols rs := (contains_true_iff _ _).mp
      ((selectCols_contains rs _).mpr ⟨by decide, hopt _ (by decide)⟩)
    have hS2 : "full_title" ∈ selectCols rs := (contains_true_iff _ _).mp
      ((selectCols_contains rs _).mpr ⟨by decide, hopt _ (by decide)⟩)
    have hS3 : "media_type" ∈ selectCols rs := (contains_true_iff _ _).mp
      ((selectCols_contains rs _).mpr ⟨by decide, hopt _ (by decide)⟩)
    have hS4 : "duration" ∈ selectCols rs := (contains_true_iff _ _).mp
      ((selectCols_contains rs _).mpr ⟨by decide, hopt _ (by decide)⟩)
    have hS5 : "ip_address" ∈ selectCols rs := (contains_true_iff _ _).mp
      ((selectCols_contains rs _).mpr ⟨by decide, hopt _ (by decide)⟩)
    have hS6 : "platform" ∈ selectCols rs := (contains_true_iff _ _).mp
      ((selectCols_contains rs _).mpr ⟨by decide, hopt _ (by decide)⟩)
    simp [rowParams, getCol, hS1, hS2, hS3, hS4, hS5, hS6]
  · intro r c hc
    unfold cellOf
    have hf : r.find? (fun p => p.1 == c) = none := by
      rw [List.find?_eq_none]
      intro x hx
      simp only [beq_iff_eq]
      intro heq
      have hmem2 : x.1 ∈ rawKeys r := List.mem_map_of_mem (fun p => p.1) hx
      rw [heq] at hmem2
      have := (contains_true_iff (rawKeys r) c).mpr hmem2
      rw [hc] at this
      cases this
    rw [hf]

/-- Closed instance of C7 (amended): in the batch `[rec100, recBare]` all
optional columns exist (from `rec100`), so the bare record is written with
nulls in every optional field. -/
theorem c7_witness :
    rowParams (["reference_id", "friendly_name", "full_title", "media_type",
      "duration", "ip_address", "platform", "watched_at"]) 1 ⟨recBare, .vTime 0⟩ =
      .ok ⟨1, .vTime 0, .vNull, .vNull, .vNull, .vNull, .vNull, .vNull⟩ :=
  (c7_field_selection_tolerance [rec100, recBare]
      (["reference_id", "friendly_name", "full_title", "media_type",
        "duration", "ip_address", "platform", "watched_at"])
      [⟨rec100, .vTime 1700000000000000000⟩, ⟨recBare, .vTime 0⟩]
      (by decide)).2.1 (by decide) 1 ⟨recBare, .vTime 0⟩

/-! C8: timestamp conversion and round trip. -/

/-- C8. Converting `date = 1700000000` yields the pandas timestamp stored
as 1700000000000000000 epoch nanoseconds, whose calendar rendering is
2023-11-14T22:13:20Z; re-deriving the unix seconds gives back 1700000000,
and the round trip holds for every integer unix-seconds input. The
transformed frame carries the value in the `watched_at` column and has no
`date` column. -/
theorem c8_timestamp_roundtrip :
    toDatetimeCell (Value.vInt 1700000000) = .ok (Value.vTime 1700000000000000000)
    ∧ renderTs 1700000000000000000 = "2023-11-14T22:13:20Z"
    ∧ tsToUnixSeconds (Value.vTime 1700000000000000000) = some 1700000000
    ∧ (∀ n : Int, toDatetimeCell (Value.vInt n) = .ok (Value.vTime (n * 1000000000))
        ∧ tsToUnixSeconds (Value.vTime (n * 1000000000)) = some n)
    ∧ (∃ cols rows, transform [rec100] = .ok (cols, rows)
        ∧ cols.contains "date" = false
        ∧ cols.contains "watched_at" = true
        ∧ rows.map DfRow.watched = [Value.vTime 1700000000000000000]) := by
  refine ⟨rfl, by decide, rfl, ?_, ?_⟩
  · intro n
    refine ⟨rfl, ?_⟩
    show some ((n * 1000000000).ediv 1000000000) = some n
    exact congrArg some (Int.mul_ediv_cancel n (by norm_num))
  · exact ⟨["reference_id", "friendly_name", "full_title", "media_type",
      "duration", "ip_address", "platform", "watched_at"],
      [⟨rec100, .vTime 1700000000000000000⟩],
      by decide, by decide, by decide, by decide⟩

/-! Remaining closed instances. -/

/-- Closed instance of C9: re-inserting an existing row is a no-op. -/
theorem c9_witness : insertRow [row100] row100 = ([row100], 0) :=
  c9_rows_immutable.1 [row100] row100 (by decide)

/-- Two distinct records sharing the key 7. -/
def row7a : TableRow := ⟨7, .vNull, .vStr "a", .vNull, .vNull, .vNull, .vNull, .vNull⟩
/-- Second record with key 7 and different content. -/
def row7b : TableRow := ⟨7, .vNull, .vStr "b", .vNull, .vNull, .vNull, .vNull, .vNull⟩

/-- Closed instance of C10: a batch with two records sharing key 7 inserts
only the first one. -/
theorem c10_witness :
    (insertBatch [] [row7a, row7b]).1.filter (fun row => row.reference_id == 7) = [row7a]
    ∧ (insertBatch [] [row7a, row7b]).1.length
        = ([] : Table).length + (insertBatch [] [row7a, row7b]).2
    ∧ (insertBatch [] [row7a, row7b]).2
        ≤ (([row7a, row7b].map (fun p => p.reference_id)).dedup).length :=
  c10_duplicate_keys_single_insert [] [row7a, row7b] 7 row7a (by decide) (by decide)

end Etl
